import Mathlib

/-!
Verification of the `awsconnect` resolution cascade and credential bridge.

The Rust source is embedded shallowly:
* fallible control flow is made explicit with `RunResult`, which separates a
  normal `anyhow` error (`err`, produced in Rust by `bail!` / `context` /
  `ok_or_else`) from a process abort (`panic`, produced in Rust by
  `unwrap` / `expect` / out-of-bounds indexing);
* Rust's `str::split` on a string pattern is embedded as `splitChars`
  (leftmost, non-overlapping matches over the underlying character list);
* interactive menu selection (`dialoguer::Select::interact`) is embedded by
  passing the operator's chosen index as an explicit argument;
* the process environment mutated by `std::env::set_var` is embedded as a
  total function from variable names to optional values.
-/

namespace Awsconnect

/-- Outcome of running a piece of Rust code: a value, an `anyhow` error with
its message, or a panic with its message. -/
inductive RunResult (α : Type) where
  | ok : α → RunResult α
  | err : String → RunResult α
  | panic : String → RunResult α
deriving DecidableEq

/-- The message Rust prints for `Option::unwrap` on `None`. -/
def unwrapNoneMsg : String := "called Option::unwrap() on a None value"

/-! ### Rust `str::split` embedded over character lists -/

/-- First occurrence of `sep` in `s`: returns the text before the match and
the text after it.  `none` when `sep` (assumed non-empty) does not occur. -/
def breakOn (sep : List Char) : List Char → Option (List Char × List Char)
  | [] => none
  | c :: rest =>
    if sep.isPrefixOf (c :: rest) then some ([], (c :: rest).drop sep.length)
    else
      match breakOn sep rest with
      | some (pre, post) => some (c :: pre, post)
      | none => none

/-- Fuelled worker for `splitChars`. -/
def splitAux (sep : List Char) : Nat → List Char → List (List Char)
  | 0, s => [s]
  | fuel + 1, s =>
    match breakOn sep s with
    | none => [s]
    | some (pre, post) => pre :: splitAux sep fuel post

/-- Rust `s.split(sep)` for a non-empty string pattern `sep`: the pieces of
`s` between leftmost non-overlapping occurrences of `sep`. -/
def splitChars (sep s : List Char) : List (List Char) :=
  splitAux sep (s.length + 1) s

/-! ### Domain model (`src/task.rs`) -/

/-- The eight-variant task lifecycle enumeration. -/
inductive TaskStatus where
  | PROVISIONING
  | PENDING
  | ACTIVATING
  | RUNNING
  | DEACTIVATING
  | STOPPING
  | DEPROVISIONING
  | STOPPED
deriving DecidableEq

/-- The strum `Display` implementation: the variant's own name. -/
def TaskStatus.toStr : TaskStatus → String
  | .PROVISIONING => "PROVISIONING"
  | .PENDING => "PENDING"
  | .ACTIVATING => "ACTIVATING"
  | .RUNNING => "RUNNING"
  | .DEACTIVATING => "DEACTIVATING"
  | .STOPPING => "STOPPING"
  | .DEPROVISIONING => "DEPROVISIONING"
  | .STOPPED => "STOPPED"

/-- The strum `EnumString` implementation (`TaskStatus::from_str`):
case-sensitive exact match against the eight variant names. -/
def TaskStatus.fromStr (s : String) : Option TaskStatus :=
  if s = "PROVISIONING" then some .PROVISIONING
  else if s = "PENDING" then some .PENDING
  else if s = "ACTIVATING" then some .ACTIVATING
  else if s = "RUNNING" then some .RUNNING
  else if s = "DEACTIVATING" then some .DEACTIVATING
  else if s = "STOPPING" then some .STOPPING
  else if s = "DEPROVISIONING" then some .DEPROVISIONING
  else if s = "STOPPED" then some .STOPPED
  else none

/-- Method `TaskStatus::pretty_status`: empty for `RUNNING`, otherwise a leading
space followed by the variant name. -/
def TaskStatus.pretty_status (s : TaskStatus) : String :=
  if s ≠ TaskStatus.RUNNING then " " ++ s.toStr else ""

/-- Structure `Container` (src/task.rs). -/
structure Container where
  arn : String
  name : String
  status : String
deriving DecidableEq

/-- Method `Container::pretty`: the name alone when the raw status string is exactly
`"RUNNING"`, otherwise the name, a space, and the raw status string. -/
def Container.pretty (c : Container) : String :=
  c.name ++ (if c.status = "RUNNING" then "" else " " ++ c.status)

/-- Structure `Task` (src/task.rs). -/
structure Task where
  name : String
  arn : String
  containers : List Container
  status : TaskStatus
deriving DecidableEq

/-- Method `Task::friendly_output`: name, status suffix, arn in parentheses, then
the containers rendered with `Container::pretty` and joined with `", "`. -/
def Task.friendly_output (t : Task) : String :=
  let container_count := t.containers.length
  let containers := t.containers.enum.foldl
    (fun acc p =>
      let acc := acc ++ p.2.pretty
      if p.1 != container_count - 1 then acc ++ ", " else acc) ""
  t.name ++ t.status.pretty_status ++ " (" ++ t.arn ++ ") [" ++ containers ++ "]"

/-! ### Raw orchestration-API records (the used fields of
`rusoto_ecs::Container` / `rusoto_ecs::Task`) -/

/-- The fields of `rusoto_ecs::Container` read by the conversion. -/
structure RawContainer where
  container_arn : Option String
  name : Option String
  last_status : Option String
deriving DecidableEq

/-- The fields of `rusoto_ecs::Task` read by the conversion. -/
structure RawTask where
  task_definition_arn : Option String
  containers : Option (List RawContainer)
  task_arn : Option String
  last_status : Option String
deriving DecidableEq

/-- The delimiter used to extract the task name. -/
def taskDefSep : List Char := (":task-definition/").data

/-- The `.map(...).collect()` over raw containers inside the `From`
implementation: each missing field is an `unwrap`/`expect` panic. -/
def convContainers : List RawContainer → RunResult (List Container)
  | [] => .ok []
  | c :: rest =>
    match c.container_arn with
    | none => .panic "Container had no ARN"
    | some arn =>
      match c.name with
      | none => .panic unwrapNoneMsg
      | some nm =>
        match c.last_status with
        | none => .panic unwrapNoneMsg
        | some st =>
          match convContainers rest with
          | .ok cs => .ok ({ arn := arn, name := nm, status := st } :: cs)
          | .err e => .err e
          | .panic m => .panic m

/-- Embedding of `impl From<rusoto_ecs::Task> for Task` (src/task.rs:44-52), with each
`expect`/`unwrap` made explicit, in the source's evaluation order. -/
def taskFrom (item : RawTask) : RunResult Task :=
  match item.task_definition_arn with
  | none => .panic "Failed to get task arn from task"
  | some tda =>
    match (splitChars taskDefSep tda.data)[1]? with
    | none => .panic unwrapNoneMsg
    | some afterPre =>
      match (splitChars [':'] afterPre)[0]? with
      | none => .panic unwrapNoneMsg
      | some namePart =>
        let name : String := ⟨namePart⟩
        match item.containers with
        | none => .panic "Failed to identify containers on task"
        | some rawContainers =>
          match convContainers rawContainers with
          | .err e => .err e
          | .panic m => .panic m
          | .ok containers =>
            match item.task_arn with
            | none => .panic unwrapNoneMsg
            | some taskArn =>
              match item.last_status with
              | none => .panic unwrapNoneMsg
              | some ls =>
                match TaskStatus.fromStr ls with
                | none => .panic unwrapNoneMsg
                | some status =>
                  .ok { name := name, arn := taskArn,
                        containers := containers, status := status }

/-! ### Cluster resolver (`get_cluster`, src/main.rs:101-119) -/

/-- Rust `String`'s `Ord`: lexicographic comparison (on the character
sequence; identical to byte order for the ASCII ARNs involved). -/
def lexLe : List Char → List Char → Bool
  | [], _ => true
  | _ :: _, [] => false
  | a :: as, b :: bs => if a < b then true else if b < a then false else lexLe as bs

/-- Comparison `a <= b` on Rust strings, used by `Vec::<String>::sort`. -/
def string_le (a b : String) : Bool := lexLe a.data b.data

/-- The delimiter used to derive a cluster's friendly display name. -/
def clusterSep : List Char := (":cluster/").data

/-- One entry of the friendly-name derivation:
`name.split(":cluster/").nth(1).unwrap()` (src/main.rs:108). -/
def friendly_name (name : String) : RunResult String :=
  match (splitChars clusterSep name.data)[1]? with
  | none => .panic unwrapNoneMsg
  | some s => .ok ⟨s⟩

/-- Total companion of `friendly_name`, used to state menu contents: the
piece after the first `":cluster/"` (empty when the delimiter is absent). -/
def friendlyD (name : String) : String :=
  ⟨((splitChars clusterSep name.data)[1]?).getD []⟩

/-- The `friendly_cluster_names` vector: the derivation mapped over the
sorted ARNs, the first panic aborting the whole computation. -/
def friendly_cluster_names : List String → RunResult (List String)
  | [] => .ok []
  | c :: rest =>
    match friendly_name c with
    | .err e => .err e
    | .panic m => .panic m
    | .ok n =>
      match friendly_cluster_names rest with
      | .err e => .err e
      | .panic m => .panic m
      | .ok ns => .ok (n :: ns)

/-- The interactive arm of `get_cluster`: sort the listed ARNs, derive the
friendly menu, and return the raw ARN at the operator's chosen index.
`cluster_arns` is the `list_clusters` response field; `selection` is the
index returned by the interactive menu. -/
def get_cluster_interactive (cluster_arns : Option (List String))
    (selection : Nat) : RunResult String :=
  match cluster_arns with
  | none => .err "No clusters found"
  | some cl =>
    let clusters := cl.mergeSort string_le
    match friendly_cluster_names clusters with
    | .err e => .err e
    | .panic m => .panic m
    | .ok _menu =>
      match clusters[selection]? with
      | none => .panic "index out of bounds"
      | some c => .ok c

/-- Function `get_cluster`: an explicit name is returned verbatim, otherwise the
interactive path runs. -/
def get_cluster (cluster_name : Option String)
    (cluster_arns : Option (List String)) (selection : Nat) : RunResult String :=
  match cluster_name with
  | some name => .ok name
  | none => get_cluster_interactive cluster_arns selection

/-! ### Task resolver, named-task path (`get_tasks`, src/main.rs:124-133) -/

/-- The fields of a `rusoto_ecs::Failure` record. -/
structure Failure where
  arn : Option String
  detail : Option String
  reason : Option String
deriving DecidableEq

/-- The fields of a `rusoto_ecs::DescribeTasksResponse` read by `get_tasks`. -/
structure DescribeTasksResult where
  failures : Option (List Failure)
  tasks : Option (List RawTask)
deriving DecidableEq

/-- Debug rendering of an optional string field. -/
def optionDebug : Option String → String
  | none => "None"
  | some s => "Some(\"" ++ s ++ "\")"

/-- Rendering of one `Failure` in the model's `{:?}` debug output. -/
def failureDebug (f : Failure) : String :=
  "Failure \x7b arn: " ++ optionDebug f.arn ++ ", detail: " ++ optionDebug f.detail
    ++ ", reason: " ++ optionDebug f.reason ++ " \x7d"

/-- The `bail!` message surfacing the failure list verbatim. -/
def describe_failures_error (fs : List Failure) : String :=
  "Failed to contact ESC API. Failed: [" ++ String.intercalate ", " (fs.map failureDebug) ++ "]"

/-- Test `failures.as_ref().is_some() && !failures.as_ref().unwrap().is_empty()`. -/
def failures_nonempty : Option (List Failure) → Bool
  | some fs => !fs.isEmpty
  | none => false

/-- The `Some(name)` arm of `get_tasks`, starting from the describe-call's
successfully transported response: bail on reported failures, error on an
absent task list, and otherwise convert the first record. -/
def get_tasks_named (dr : DescribeTasksResult) : RunResult Task :=
  if failures_nonempty dr.failures then
    .err (describe_failures_error (dr.failures.getD []))
  else
    match dr.tasks with
    | none => .err "No task found"
    | some tasks =>
      match tasks.head? with
      | none => .panic unwrapNoneMsg
      | some t => taskFrom t

/-! ### Container resolver (`choose_container`, src/main.rs:166-188) -/

/-- The menu labels of the interactive container prompt: the container
names, in task order. -/
def friendly_container_name (task : Task) : List String :=
  task.containers.map (fun c => c.name)

/-- Function `choose_container`: an explicit name matches exactly against name or
ARN; otherwise a single container is auto-selected, and two or more are
offered as a menu whose chosen index selects the container. -/
def choose_container (task : Task) (container_name : Option String)
    (selection : Nat) : RunResult Container :=
  match container_name with
  | some name =>
    match task.containers.find? (fun c => (c.name == name) || c.arn == name) with
    | some c => .ok c
    | none => .err "No container found matching"
  | none =>
    if task.containers.length = 1 then
      match task.containers.head? with
      | some c => .ok c
      | none => .panic unwrapNoneMsg
    else
      match task.containers[selection]? with
      | some c => .ok c
      | none => .panic "index out of bounds"

/-- Whether `choose_container` reaches the `Select::interact` call: only on
the no-explicit-name branch when the container count differs from one. -/
def choose_container_prompts (task : Task) (container_name : Option String) : Bool :=
  match container_name with
  | some _ => false
  | none => task.containers.length != 1

/-! ### Credential bridge (`setup_environment`, src/main.rs:60-69) -/

/-- The process environment: a total map from variable names to optional
values. -/
def Env : Type := String → Option String

/-- An environment with no variables set. -/
def empty_env : Env := fun _ => none

/-- Mutation `std::env::set_var`. -/
def set_var (e : Env) (k v : String) : Env :=
  fun q => if q = k then some v else e q

/-- Modelled from the spec: one line of the external `dotenv_parser`
library's parsing (the crate is not part of this repository): a usable
assignment is a line with a `=` delimiter and a non-empty key; other lines
carry no assignment. -/
def parse_line (line : String) : Option (String × String) :=
  match breakOn ['='] line.data with
  | none => none
  | some (k, v) => if k = [] then none else some (⟨k⟩, ⟨v⟩)

/-- The key/value pairs a captured dump text parses to: its lines, each
read as a flat `KEY=value` assignment. -/
def parsed_pairs (source : String) : List (String × String) :=
  (splitChars ['\x0a'] source.data).filterMap (fun l => parse_line ⟨l⟩)

/-- Modelled from the spec: the external `dotenv_parser::parse_dotenv`
entry point (the crate is not part of this repository): the captured text
as a flat key/value mapping, failing when it yields no usable assignments. -/
def parse_dotenv (source : String) : Except String (List (String × String)) :=
  let pairs := parsed_pairs source
  if pairs.isEmpty then .error "Failed to parse" else .ok pairs

/-- Function `setup_environment`, starting from the captured stdout of the vault
subprocess: parse the dump (the `expect` panics when parsing fails) and
merge every parsed pair into the process environment. -/
def setup_environment (buffer : String) (env : Env) : RunResult Env :=
  match parse_dotenv buffer with
  | .error _ => .panic "Failed to find AWS credentials"
  | .ok pairs => .ok (pairs.foldl (fun e kv => set_var e kv.1 kv.2) env)

/-! ### Auxiliary predicates and concrete records used in the statements -/

/-- The eight status names, in declaration order. -/
def statusNames : List String :=
  ["PROVISIONING", "PENDING", "ACTIVATING", "RUNNING",
   "DEACTIVATING", "STOPPING", "DEPROVISIONING", "STOPPED"]

/-- All three fields of a raw container record are present. -/
def ContainerFieldsPresent (c : RawContainer) : Prop :=
  c.container_arn ≠ none ∧ c.name ≠ none ∧ c.last_status ≠ none

/-- A raw task record is malformed in one of the ways the specification
lists: the task-definition identifier (when present at all) does not
contain the `":task-definition/"` delimiter, the containers field is
absent, some container lacks an ARN, name, or status, the task ARN is
absent, or the last-status string (when present at all) is not one of the
eight status names. -/
def MalformedRaw (item : RawTask) : Prop :=
  (∀ s, item.task_definition_arn = some s → ¬ taskDefSep <:+: s.data)
  ∨ item.containers = none
  ∨ (∃ cs, item.containers = some cs ∧ ∃ c ∈ cs, ¬ ContainerFieldsPresent c)
  ∨ item.task_arn = none
  ∨ (∀ s, item.last_status = some s → s ∉ statusNames)

/-- Every field the conversion reads is present and parseable. -/
def WellformedRaw (item : RawTask) : Prop :=
  (∃ s, item.task_definition_arn = some s ∧ taskDefSep <:+: s.data)
  ∧ (∃ cs, item.containers = some cs ∧ ∀ c ∈ cs, ContainerFieldsPresent c)
  ∧ (∃ a, item.task_arn = some a)
  ∧ (∃ s, item.last_status = some s ∧ s ∈ statusNames)

/-- The well-formed raw container of the specification's concrete example. -/
def rawGoodContainer : RawContainer :=
  { container_arn := some "c1", name := some "web", last_status := some "RUNNING" }

/-- The well-formed raw task record of the specification's concrete
example. -/
def rawGood : RawTask :=
  { task_definition_arn := some "arn:...:task-definition/my-task:7"
  , containers := some [rawGoodContainer]
  , task_arn := some "arn:...:task/cluster/abc123"
  , last_status := some "RUNNING" }

/-- The converted container of the specification's concrete example. -/
def goodContainer : Container := { arn := "c1", name := "web", status := "RUNNING" }

/-- The converted task of the specification's concrete example. -/
def goodTask : Task :=
  { name := "my-task", arn := "arn:...:task/cluster/abc123"
  , containers := [goodContainer], status := TaskStatus.RUNNING }


/-! ### Lemmas -/


theorem breakOn_append {sep : List Char} :
    ∀ {s pre post : List Char}, breakOn sep s = some (pre, post) →
      s = pre ++ sep ++ post := by
  intro s
  induction s with
  | nil => intro pre post h; simp [breakOn] at h
  | cons c rest ih =>
    intro pre post h
    by_cases hp : sep.isPrefixOf (c :: rest)
    · rw [breakOn, if_pos hp] at h
      obtain ⟨h1, h2⟩ := Prod.mk.inj (Option.some.inj h)
      subst h1
      subst h2
      simp only [List.nil_append]
      exact (List.prefix_iff_eq_append.mp (List.isPrefixOf_iff_prefix.mp hp)).symm
    · rw [breakOn, if_neg hp] at h
      cases hb : breakOn sep rest with
      | none => rw [hb] at h; exact absurd h (by simp)
      | some pq =>
        obtain ⟨p, q⟩ := pq
        rw [hb] at h
        obtain ⟨h1, h2⟩ := Prod.mk.inj (Option.some.inj h)
        subst h1
        subst h2
        simp [ih hb]

theorem breakOn_eq_none_iff {sep : List Char} (hsep : sep ≠ []) :
    ∀ {s : List Char}, breakOn sep s = none ↔ ¬ sep <:+: s := by
  intro s
  induction s with
  | nil =>
    simp only [breakOn, true_iff]
    exact fun h => hsep (List.infix_nil.mp h)
  | cons c rest ih =>
    by_cases hp : sep.isPrefixOf (c :: rest)
    · rw [breakOn, if_pos hp]
      exact iff_of_false (by simp)
        (not_not_intro (List.isPrefixOf_iff_prefix.mp hp).isInfix)
    · rw [breakOn, if_neg hp]
      have hnp : ¬ sep <+: (c :: rest) := fun hpre => hp (List.isPrefixOf_iff_prefix.mpr hpre)
      cases hb : breakOn sep rest with
      | none =>
        refine iff_of_true rfl ?_
        rw [List.infix_cons_iff]
        exact fun hor => hor.elim hnp (ih.mp hb)
      | some pq =>
        refine iff_of_false (by simp) ?_
        have hri : sep <:+: rest := by
          by_contra hni
          rw [ih.mpr hni] at hb
          exact Option.noConfusion hb
        exact not_not_intro (List.infix_cons_iff.mpr (Or.inr hri))

theorem splitAux_ne_nil {sep : List Char} :
    ∀ {fuel : Nat} {s : List Char}, splitAux sep fuel s ≠ [] := by
  intro fuel s
  cases fuel with
  | zero => simp [splitAux]
  | succ n =>
    rw [splitAux]
    cases breakOn sep s with
    | none => simp
    | some pq => simp

theorem splitChars_of_breakOn_none {sep s : List Char}
    (h : breakOn sep s = none) : splitChars sep s = [s] := by
  rw [splitChars, splitAux, h]

theorem splitChars_of_breakOn_some {sep s : List Char} {pre post : List Char}
    (h : breakOn sep s = some (pre, post)) :
    splitChars sep s = pre :: splitAux sep s.length post := by
  rw [splitChars, splitAux, h]

theorem splitChars_one_eq_none {sep s : List Char} (hsep : sep ≠ [])
    (h : ¬ sep <:+: s) : (splitChars sep s)[1]? = none := by
  rw [splitChars_of_breakOn_none ((breakOn_eq_none_iff hsep).mpr h)]
  rfl

theorem splitChars_one_eq_some {sep s : List Char}
    (h : sep <:+: s) (hsep : sep ≠ []) :
    ∃ q, (splitChars sep s)[1]? = some q := by
  cases hb : breakOn sep s with
  | none => exact absurd ((breakOn_eq_none_iff hsep).mp hb) (not_not_intro h)
  | some pq =>
    obtain ⟨p, q⟩ := pq
    rw [splitChars_of_breakOn_some hb]
    cases hq : splitAux sep s.length q with
    | nil => exact absurd hq splitAux_ne_nil
    | cons x xs => exact ⟨x, by simp [hq]⟩

theorem splitChars_pair {sep s p q : List Char} (h : splitChars sep s = [p, q]) :
    s = p ++ sep ++ q := by
  cases hb : breakOn sep s with
  | none => rw [splitChars_of_breakOn_none hb] at h; simp at h
  | some pq =>
    obtain ⟨pre, post⟩ := pq
    rw [splitChars_of_breakOn_some hb] at h
    have h1 : pre = p := (List.cons.inj h).1
    have h2 : splitAux sep s.length post = [q] := (List.cons.inj h).2
    have hq : post = q := by
      cases hf : s.length with
      | zero => rw [hf] at h2; simpa [splitAux] using h2
      | succ n =>
        rw [hf, splitAux] at h2
        cases hb2 : breakOn sep post with
        | none => rw [hb2] at h2; exact (List.cons.inj h2).1
        | some pq2 =>
          rw [hb2] at h2
          have := (List.cons.inj h2).2
          exact absurd this splitAux_ne_nil
    subst h1
    subst hq
    exact breakOn_append hb

theorem fromStr_mem {s : String} {st : TaskStatus}
    (h : TaskStatus.fromStr s = some st) : s ∈ statusNames := by
  rw [TaskStatus.fromStr] at h
  split_ifs at h with h1 h2 h3 h4 h5 h6 h7 h8 <;>
    simp_all [statusNames]

theorem fromStr_isSome_of_mem {s : String} (h : s ∈ statusNames) :
    ∃ st, TaskStatus.fromStr s = some st := by
  simp only [statusNames, List.mem_cons] at h
  rcases h with h | h | h | h | h | h | h | h | h <;>
    first
      | (subst h; exact ⟨_, rfl⟩)
      | exact absurd h (List.not_mem_nil s)

theorem convContainers_shape (cs : List RawContainer) :
    (∃ l, convContainers cs = .ok l) ∨ (∃ m, convContainers cs = .panic m) := by
  induction cs with
  | nil => exact Or.inl ⟨[], rfl⟩
  | cons c rest ih =>
    cases ha : c.container_arn with
    | none => exact Or.inr ⟨_, by rw [convContainers, ha]⟩
    | some arn =>
      cases hn : c.name with
      | none => exact Or.inr ⟨_, by rw [convContainers, ha, hn]⟩
      | some nm =>
        cases hs : c.last_status with
        | none => exact Or.inr ⟨_, by rw [convContainers, ha, hn, hs]⟩
        | some st =>
          rcases ih with ⟨l, hl⟩ | ⟨m, hm⟩
          · exact Or.inl ⟨_, by rw [convContainers, ha, hn, hs, hl]⟩
          · exact Or.inr ⟨_, by rw [convContainers, ha, hn, hs, hm]⟩

theorem convContainers_ok_fields :
    ∀ {cs : List RawContainer} {l : List Container},
      convContainers cs = .ok l → ∀ c ∈ cs, ContainerFieldsPresent c := by
  intro cs
  induction cs with
  | nil => intro l _ c hc; exact absurd hc (List.not_mem_nil c)
  | cons c0 rest ih =>
    intro l h c hc
    cases ha : c0.container_arn with
    | none => rw [convContainers, ha] at h; exact absurd h (by simp)
    | some arn =>
      cases hn : c0.name with
      | none => rw [convContainers, ha, hn] at h; exact absurd h (by simp)
      | some nm =>
        cases hs : c0.last_status with
        | none => rw [convContainers, ha, hn, hs] at h; exact absurd h (by simp)
        | some st =>
          cases hr : convContainers rest with
          | ok cs' =>
            rcases List.mem_cons.mp hc with hceq | hcr
            · subst hceq; exact ⟨by simp [ha], by simp [hn], by simp [hs]⟩
            · exact ih hr c hcr
          | err e => rw [convContainers, ha, hn, hs, hr] at h; exact absurd h (by simp)
          | panic m => rw [convContainers, ha, hn, hs, hr] at h; exact absurd h (by simp)

theorem taskFrom_shape (item : RawTask) :
    (∃ t, taskFrom item = .ok t) ∨ (∃ m, taskFrom item = .panic m) := by
  cases htda : item.task_definition_arn with
  | none => exact Or.inr ⟨_, by rw [taskFrom, htda]⟩
  | some tda =>
    cases hsp : (splitChars taskDefSep tda.data)[1]? with
    | none => exact Or.inr ⟨unwrapNoneMsg, by rw [taskFrom, htda]; simp [hsp]⟩
    | some afterPre =>
      cases hsp0 : (splitChars [':'] afterPre)[0]? with
      | none => exact Or.inr ⟨unwrapNoneMsg, by rw [taskFrom, htda]; simp [hsp, hsp0]⟩
      | some namePart =>
        cases hco : item.containers with
        | none =>
          exact Or.inr ⟨"Failed to identify containers on task",
            by rw [taskFrom, htda]; simp [hsp, hsp0, hco]⟩
        | some rawContainers =>
          rcases convContainers_shape rawContainers with ⟨l, hl⟩ | ⟨m, hm⟩
          · cases hta : item.task_arn with
            | none =>
              exact Or.inr ⟨unwrapNoneMsg, by rw [taskFrom, htda]; simp [hsp, hsp0, hco, hl, hta]⟩
            | some taskArn =>
              cases hls : item.last_status with
              | none =>
                exact Or.inr ⟨unwrapNoneMsg,
                  by rw [taskFrom, htda]; simp [hsp, hsp0, hco, hl, hta, hls]⟩
              | some ls =>
                cases hfs : TaskStatus.fromStr ls with
                | none =>
                  exact Or.inr ⟨unwrapNoneMsg,
                    by rw [taskFrom, htda]; simp [hsp, hsp0, hco, hl, hta, hls, hfs]⟩
                | some status =>
                  exact Or.inl ⟨{ name := ⟨namePart⟩, arn := taskArn, containers := l, status := status },
                    by rw [taskFrom, htda]; simp [hsp, hsp0, hco, hl, hta, hls, hfs]⟩
          · exact Or.inr ⟨m, by rw [taskFrom, htda]; simp [hsp, hsp0, hco, hm]⟩



theorem taskFrom_ok_wellformed {item : RawTask} {t : Task}
    (h : taskFrom item = .ok t) : WellformedRaw item := by
  cases htda : item.task_definition_arn with
  | none => rw [taskFrom, htda] at h; exact absurd h (by simp)
  | some tda =>
    cases hsp : (splitChars taskDefSep tda.data)[1]? with
    | none => rw [taskFrom, htda] at h; simp [hsp] at h
    | some afterPre =>
      cases hsp0 : (splitChars [':'] afterPre)[0]? with
      | none => rw [taskFrom, htda] at h; simp [hsp, hsp0] at h
      | some namePart =>
        cases hco : item.containers with
        | none => rw [taskFrom, htda] at h; simp [hsp, hsp0, hco] at h
        | some rawContainers =>
          cases hcv : convContainers rawContainers with
          | err e => rw [taskFrom, htda] at h; simp [hsp, hsp0, hco, hcv] at h
          | panic m => rw [taskFrom, htda] at h; simp [hsp, hsp0, hco, hcv] at h
          | ok l =>
            cases hta : item.task_arn with
            | none => rw [taskFrom, htda] at h; simp [hsp, hsp0, hco, hcv, hta] at h
            | some taskArn =>
              cases hls : item.last_status with
              | none => rw [taskFrom, htda] at h; simp [hsp, hsp0, hco, hcv, hta, hls] at h
              | some ls =>
                cases hfs : TaskStatus.fromStr ls with
                | none => rw [taskFrom, htda] at h; simp [hsp, hsp0, hco, hcv, hta, hls, hfs] at h
                | some status =>
                  refine ⟨⟨tda, htda, ?_⟩, ⟨rawContainers, hco, convContainers_ok_fields hcv⟩,
                    ⟨taskArn, hta⟩, ⟨ls, hls, fromStr_mem hfs⟩⟩
                  by_contra hni
                  rw [splitChars_one_eq_none (by decide) hni] at hsp
                  exact Option.noConfusion hsp

theorem malformed_not_wellformed {item : RawTask}
    (hm : MalformedRaw item) (hw : WellformedRaw item) : False := by
  obtain ⟨⟨s1, hs1, hinf⟩, ⟨cs, hcs, hfields⟩, ⟨a, ha⟩, ⟨s2, hs2, hmem⟩⟩ := hw
  rcases hm with h | h | h | h | h
  · exact h s1 hs1 hinf
  · rw [h] at hcs; exact Option.noConfusion hcs
  · obtain ⟨cs', hcs', c, hc, hnf⟩ := h
    rw [hcs] at hcs'
    exact hnf (hfields c (Option.some.inj hcs' ▸ hc))
  · rw [h] at ha; exact Option.noConfusion ha
  · exact h s2 hs2 hmem

/-- C1 amended: a raw record malformed in any of the listed ways — the
task-definition identifier absent or lacking the `":task-definition/"`
delimiter, the containers field absent, any container lacking an ARN,
name, or status, the task ARN absent, or the last-status string absent or
not one of the eight status names — makes the conversion abort by panic
(never an `anyhow` error and never a fallback `Task` value). -/
theorem taskFrom_malformed_panics (item : RawTask) (h : MalformedRaw item) :
    ∃ m, taskFrom item = .panic m := by
  rcases taskFrom_shape item with ⟨t, ht⟩ | hp
  · exact absurd (taskFrom_ok_wellformed ht) (fun hw => malformed_not_wellformed h hw)
  · exact hp



theorem lexLe_refl : ∀ l : List Char, lexLe l l = true := by
  intro l
  induction l with
  | nil => rfl
  | cons a as ih => simp [lexLe, ih]

theorem lexLe_total : ∀ a b : List Char, lexLe a b || lexLe b a := by
  intro a
  induction a with
  | nil => intro b; simp [lexLe]
  | cons x xs ih =>
    intro b
    cases b with
    | nil => simp [lexLe]
    | cons y ys =>
      rcases lt_trichotomy x y with hlt | heq | hgt
      · simp [lexLe, hlt]
      · subst heq
        simp only [lexLe, lt_irrefl, if_false]
        exact ih ys
      · simp [lexLe, hgt, not_lt_of_lt hgt]

theorem lexLe_trans : ∀ a b c : List Char,
    lexLe a b = true → lexLe b c = true → lexLe a c = true := by
  intro a
  induction a with
  | nil => intro b c _ _; rfl
  | cons x xs ih =>
    intro b c hab hbc
    cases b with
    | nil => simp [lexLe] at hab
    | cons y ys =>
      cases c with
      | nil => simp [lexLe] at hbc
      | cons z zs =>
        rw [lexLe] at hab hbc ⊢
        rcases lt_trichotomy x y with hxy | hxy | hxy
        · rcases lt_trichotomy y z with hyz | hyz | hyz
          · simp [lt_trans hxy hyz]
          · subst hyz; simp [hxy]
          · rw [if_neg (lt_asymm hyz), if_pos hyz] at hbc; exact absurd hbc (by simp)
        · subst hxy
          rcases lt_trichotomy x z with hyz | hyz | hyz
          · simp [hyz]
          · subst hyz
            simp only [lt_irrefl, if_false] at hab hbc ⊢
            exact ih ys zs hab hbc
          · rw [if_neg (lt_asymm hyz), if_pos hyz] at hbc; exact absurd hbc (by simp)
        · rw [if_neg (lt_asymm hxy), if_pos hxy] at hab; exact absurd hab (by simp)

theorem string_le_refl (a : String) : string_le a a = true := lexLe_refl a.data

theorem string_le_total (a b : String) : string_le a b || string_le b a :=
  lexLe_total a.data b.data

theorem string_le_trans {a b c : String} (h1 : string_le a b = true)
    (h2 : string_le b c = true) : string_le a c = true :=
  lexLe_trans a.data b.data c.data h1 h2

/-- The head of the sorted cluster list is a lower bound for every listed
ARN. -/
theorem mergeSort_head_min (l : List String) (hne : l ≠ []) :
    ∃ first rest, l.mergeSort string_le = first :: rest ∧
      ∀ a ∈ l, string_le first a = true := by
  have hperm : (l.mergeSort string_le).Perm l := List.mergeSort_perm l string_le
  cases hms : l.mergeSort string_le with
  | nil =>
    rw [hms] at hperm
    exact absurd hperm.symm.eq_nil hne
  | cons first rest =>
    refine ⟨first, rest, rfl, ?_⟩
    intro a ha
    have hmem : a ∈ first :: rest := hms ▸ hperm.mem_iff.mpr ha
    have hsorted : (l.mergeSort string_le).Pairwise (fun x y => string_le x y = true) :=
      @List.sorted_mergeSort String string_le (fun a b c hab hbc => string_le_trans hab hbc)
        (fun a b => string_le_total a b) l
    rw [hms] at hsorted
    rcases List.mem_cons.mp hmem with heq | hmemr
    · subst heq; exact string_le_refl a
    · exact (List.pairwise_cons.mp hsorted).1 a hmemr



/-- Under the delimiter-containment hypothesis the friendly-name derivation
never panics and agrees with its total companion. -/
theorem friendly_name_ok_of_infix {a : String} (h : clusterSep <:+: a.data) :
    friendly_name a = .ok (friendlyD a) := by
  obtain ⟨q, hq⟩ := splitChars_one_eq_some h (by decide)
  rw [friendly_name, friendlyD, hq]
  rfl

theorem friendly_cluster_names_ok {l : List String}
    (h : ∀ a ∈ l, clusterSep <:+: a.data) :
    friendly_cluster_names l = .ok (l.map friendlyD) := by
  induction l with
  | nil => rfl
  | cons a rest ih =>
    rw [friendly_cluster_names, friendly_name_ok_of_infix (h a (List.mem_cons_self a rest)),
      ih (fun b hb => h b (List.mem_cons_of_mem a hb))]
    rfl

/-- Keys never parsed from the dump are untouched by the merge fold. -/
theorem foldl_set_var_frame :
    ∀ (pairs : List (String × String)) (env : Env) (k : String),
      (∀ kv ∈ pairs, kv.1 ≠ k) →
      (pairs.foldl (fun e kv => set_var e kv.1 kv.2) env) k = env k := by
  intro pairs
  induction pairs with
  | nil => intro env k _; rfl
  | cons kv rest ih =>
    intro env k h
    rw [List.foldl_cons]
    rw [ih (set_var env kv.1 kv.2) k (fun kv' h' => h kv' (List.mem_cons_of_mem kv h'))]
    rw [set_var, if_neg (fun heq => h kv (List.mem_cons_self kv rest) heq.symm)]

theorem foldl_set_var_changed :
    ∀ (pairs : List (String × String)) (env : Env) (k : String),
      (pairs.foldl (fun e kv => set_var e kv.1 kv.2) env) k ≠ env k →
      ∃ v, (k, v) ∈ pairs := by
  intro pairs env k h
  by_contra hne
  push_neg at hne
  exact h (foldl_set_var_frame pairs env k (fun kv hkv heq => hne kv.2 (by rw [← heq]; exact hkv)))



theorem append_space_status_ne (name status : String) :
    name ++ " " ++ status ≠ name := by
  intro h
  have hlen := congrArg String.length h
  rw [String.length_append, String.length_append] at hlen
  have : (" " : String).length = 1 := rfl
  omega

/-- C9: `Container.pretty` equals the name alone iff the status string is
exactly `"RUNNING"`; any other status renders as the name, a space, and the
raw status string. -/
theorem container_pretty_spec (arn name status : String) :
    (Container.pretty { arn := arn, name := name, status := status } = name ↔ status = "RUNNING")
    ∧ (status ≠ "RUNNING" →
        Container.pretty { arn := arn, name := name, status := status } = name ++ " " ++ status) := by
  by_cases h : status = "RUNNING"
  · subst h
    refine ⟨iff_of_true ?_ rfl, fun hn => absurd rfl hn⟩
    simp [Container.pretty]
  · have hp : Container.pretty { arn := arn, name := name, status := status }
        = name ++ " " ++ status := by
      simp only [Container.pretty, if_neg h]
      rw [String.append_assoc]
    refine ⟨iff_of_false ?_ h, fun _ => hp⟩
    rw [hp]
    exact append_space_status_ne name status

theorem container_pretty_spec_witness :
    (Container.pretty { arn := "c2", name := "db", status := "PENDING" } = "db" ↔ ("PENDING" : String) = "RUNNING")
    ∧ Container.pretty { arn := "c2", name := "db", status := "PENDING" } = "db" ++ " " ++ "PENDING" :=
  ⟨(container_pretty_spec "c2" "db" "PENDING").1,
    (container_pretty_spec "c2" "db" "PENDING").2 (by decide)⟩

/-- C7: the specification's concrete well-formed record converts to exactly
the expected `Task`, and `friendly_output` renders it as
`"my-task (arn:...:task/cluster/abc123) [web]"`. -/
theorem taskFrom_good_example :
    taskFrom rawGood = .ok goodTask
    ∧ goodTask.friendly_output = "my-task (arn:...:task/cluster/abc123) [web]" := by
  constructor
  · decide
  · decide

/-- C6 amended: a raw record whose containers field is absent panics, but a
record whose containers field is present and *empty* converts successfully,
to a `Task` with an empty containers collection. -/
theorem taskFrom_containers_spec :
    (∀ item : RawTask, item.containers = none → ∃ m, taskFrom item = .panic m)
    ∧ taskFrom ({ rawGood with containers := some [] }) = .ok ({ goodTask with containers := [] }) := by
  constructor
  · intro item h
    rcases taskFrom_shape item with ⟨t, ht⟩ | hp
    · obtain ⟨_, ⟨cs, hcs, _⟩, _, _⟩ := taskFrom_ok_wellformed ht
      rw [h] at hcs
      exact absurd hcs (by simp)
    · exact hp
  · decide

theorem taskFrom_containers_spec_witness :
    ∃ m, taskFrom ({ rawGood with containers := none }) = .panic m :=
  taskFrom_containers_spec.1 ({ rawGood with containers := none }) rfl

/-- C6 counterexample: a record whose containers field is present but holds
zero containers is converted to a *valid* `Task` (with empty containers),
not rejected. -/
theorem taskFrom_zero_containers_ok :
    taskFrom ({ rawGood with containers := some [] }) = .ok ({ goodTask with containers := [] })
    ∧ ({ goodTask with containers := [] } : Task).containers = [] := by
  constructor
  · decide
  · rfl

/-- C1 counterexample: a record with an absent containers field makes the
conversion panic (it is not an `anyhow`-style error), and a task-definition
identifier containing `":task-definition/"` but no subsequent `":"`
revision delimiter is *accepted*, not rejected. -/
theorem taskFrom_panics_not_errs :
    taskFrom ({ rawGood with containers := none }) = .panic "Failed to identify containers on task"
    ∧ (∀ e, taskFrom ({ rawGood with containers := none }) ≠ .err e)
    ∧ taskFrom ({ rawGood with task_definition_arn := some "x:task-definition/bar" })
        = .ok ({ goodTask with name := "bar" }) := by
  refine ⟨by decide, fun e h => ?_, by decide⟩
  rw [show taskFrom ({ rawGood with containers := none })
      = RunResult.panic "Failed to identify containers on task" by decide] at h
  exact RunResult.noConfusion h

theorem taskFrom_malformed_panics_witness :
    ∃ m, taskFrom ({ rawGood with task_arn := none }) = .panic m :=
  taskFrom_malformed_panics ({ rawGood with task_arn := none })
    (Or.inr (Or.inr (Or.inr (Or.inl rfl))))



/-- C2: the two-line credential dump parses to exactly the two expected
pairs, both become visible in the environment after the bridge step, and
the empty dump makes the bridge step fail instead of succeeding with zero
credentials applied. -/
theorem setup_environment_spec :
    parsed_pairs "AWS_ACCESS_KEY_ID=X\x0aAWS_SECRET_ACCESS_KEY=Y\x0a"
        = [("AWS_ACCESS_KEY_ID", "X"), ("AWS_SECRET_ACCESS_KEY", "Y")]
    ∧ (∀ env : Env, ∃ env2,
        setup_environment "AWS_ACCESS_KEY_ID=X\x0aAWS_SECRET_ACCESS_KEY=Y\x0a" env = .ok env2
        ∧ env2 "AWS_ACCESS_KEY_ID" = some "X"
        ∧ env2 "AWS_SECRET_ACCESS_KEY" = some "Y")
    ∧ (∀ env : Env, setup_environment "" env = .panic "Failed to find AWS credentials") := by
  refine ⟨by decide, fun env => ⟨_, rfl, rfl, rfl⟩, fun env => rfl⟩

/-- C8 counterexample: the bridge writes every parsed key unfiltered, so a
dump line with a key outside the `AWS_` prefix modifies that variable. -/
theorem setup_environment_writes_foreign_key :
    ∃ env2, setup_environment "FOO=1\x0a" empty_env = .ok env2
      ∧ env2 "FOO" = some "1"
      ∧ empty_env "FOO" = none
      ∧ ("AWS_".data.isPrefixOf "FOO".data) = false :=
  ⟨_, rfl, rfl, rfl, rfl⟩

/-- C8 amended: the bridge step only ever writes keys parsed from the dump
(all other variables keep their values), so when every parsed key carries
the `AWS_` prefix — as the grep-filtered vault output does — no variable
outside that prefix is modified; the component itself performs no prefix
filtering. -/
theorem setup_environment_frame (buffer : String) (env env2 : Env)
    (h : setup_environment buffer env = .ok env2) :
    (∀ k, env2 k ≠ env k → ∃ v, (k, v) ∈ parsed_pairs buffer)
    ∧ ((∀ kv ∈ parsed_pairs buffer, ("AWS_".data).isPrefixOf kv.1.data = true) →
        ∀ k, ("AWS_".data).isPrefixOf k.data = false → env2 k = env k) := by
  rw [setup_environment, parse_dotenv] at h
  by_cases hemp : (parsed_pairs buffer).isEmpty
  · rw [if_pos hemp] at h
    exact absurd h (by simp)
  · rw [if_neg hemp] at h
    have henv2 : env2 = (parsed_pairs buffer).foldl (fun e kv => set_var e kv.1 kv.2) env := by
      have := RunResult.ok.inj h
      exact this.symm
    subst henv2
    constructor
    · exact fun k => foldl_set_var_changed (parsed_pairs buffer) env k
    · intro hall k hk
      refine foldl_set_var_frame (parsed_pairs buffer) env k ?_
      intro kv hkv heq
      have hpre := hall kv hkv
      rw [heq] at hpre
      rw [hpre] at hk
      exact Bool.noConfusion hk

theorem setup_environment_frame_witness :
    ∃ env2, setup_environment "AWS_X=1\x0a" empty_env = .ok env2
      ∧ env2 "HOME" = empty_env "HOME" := by
  refine ⟨_, rfl, ?_⟩
  exact (setup_environment_frame "AWS_X=1\x0a" empty_env _ rfl).2 (by decide) "HOME" (by decide)

/-- C3 counterexample: with no reported failures and a *present but empty*
task collection, the named-task path aborts by `unwrap` panic, not with an
`anyhow` error. -/
theorem get_tasks_named_empty_collection_panics :
    get_tasks_named { failures := none, tasks := some [] } = .panic unwrapNoneMsg
    ∧ (∀ e, get_tasks_named { failures := none, tasks := some [] } ≠ .err e) := by
  refine ⟨rfl, fun e h => ?_⟩
  rw [show get_tasks_named { failures := none, tasks := some [] } = RunResult.panic unwrapNoneMsg
      from rfl] at h
  exact RunResult.noConfusion h

/-- C3 amended: a non-empty failure list fails the resolution immediately
with the failure details in the message; with no failures, an *absent* task
collection is an error, a present-but-empty collection is an `unwrap`
panic, and otherwise exactly the first record is converted, any further
records being ignored. -/
theorem get_tasks_named_spec (dr : DescribeTasksResult) :
    (∀ fs, dr.failures = some fs → fs ≠ [] →
        get_tasks_named dr = .err (describe_failures_error fs))
    ∧ (failures_nonempty dr.failures = false → dr.tasks = none →
        get_tasks_named dr = .err "No task found")
    ∧ (failures_nonempty dr.failures = false → dr.tasks = some [] →
        get_tasks_named dr = .panic unwrapNoneMsg)
    ∧ (∀ t rest, failures_nonempty dr.failures = false → dr.tasks = some (t :: rest) →
        get_tasks_named dr = taskFrom t) := by
  refine ⟨?_, ?_, ?_, ?_⟩
  · intro fs hfs hne
    have hnonempty : failures_nonempty dr.failures = true := by
      rw [hfs, failures_nonempty]
      simpa using hne
    rw [get_tasks_named, if_pos hnonempty, hfs]
    rfl
  · intro hf ht
    rw [get_tasks_named, if_neg (by rw [hf]; exact Bool.false_ne_true), ht]
  · intro hf ht
    rw [get_tasks_named, if_neg (by rw [hf]; exact Bool.false_ne_true), ht]
    rfl
  · intro t rest hf ht
    rw [get_tasks_named, if_neg (by rw [hf]; exact Bool.false_ne_true), ht]
    rfl

theorem get_tasks_named_spec_witness :
    get_tasks_named { failures := some [{ arn := some "a", detail := none, reason := some "MISSING" }], tasks := some [] }
      = .err (describe_failures_error [{ arn := some "a", detail := none, reason := some "MISSING" }]) :=
  (get_tasks_named_spec _).1 _ rfl (by decide)

/-- C10 counterexample: for an identifier in which `":cluster/"` occurs
twice, the derivation yields only the segment up to the next occurrence,
not the whole text after the first delimiter. -/
theorem friendly_name_double_delimiter :
    friendly_name "a:cluster/b:cluster/c" = .ok "b"
    ∧ ("a:cluster/b:cluster/c" : String) = "a" ++ ":cluster/" ++ "b:cluster/c"
    ∧ ("b" : String) ≠ "b:cluster/c" := by
  refine ⟨by decide, by decide, by decide⟩

/-- C10 amended: the friendly-name derivation is partial — an identifier
not containing `":cluster/"` aborts the resolver by `unwrap` panic, with no
fallback and no descriptive error, while an identifier in which the
delimiter occurs exactly once yields precisely the text after it. -/
theorem friendly_name_spec (arn : String) :
    (¬ clusterSep <:+: arn.data → friendly_name arn = .panic unwrapNoneMsg)
    ∧ (∀ p q, splitChars clusterSep arn.data = [p, q] →
        arn.data = p ++ clusterSep ++ q ∧ friendly_name arn = .ok ⟨q⟩) := by
  constructor
  · intro h
    rw [friendly_name, splitChars_one_eq_none (by decide) h]
  · intro p q h
    refine ⟨splitChars_pair h, ?_⟩
    rw [friendly_name, h]
    rfl

theorem friendly_name_spec_witness :
    friendly_name "nope" = .panic unwrapNoneMsg
    ∧ friendly_name "x:cluster/y" = .ok "y"
    ∧ ("x:cluster/y").data = "x".data ++ clusterSep ++ "y".data := by
  refine ⟨(friendly_name_spec "nope").1 (by decide), ?_, ?_⟩
  · exact ((friendly_name_spec "x:cluster/y").2 "x".data "y".data (by decide)).2
  · exact ((friendly_name_spec "x:cluster/y").2 "x".data "y".data (by decide)).1



/-- C5: an explicit container name selects exactly a container matching on
name or ARN (failing, without prompting, when none matches); with no
explicit name a single container is auto-selected without prompting, and
two or more containers are offered as a menu of the container names in task
order whose chosen index selects the container. -/
theorem choose_container_spec (t : Task) (name : String) (sel : Nat) :
    (∀ c, choose_container t (some name) sel = .ok c →
        c ∈ t.containers ∧ (c.name = name ∨ c.arn = name))
    ∧ ((∃ c ∈ t.containers, c.name = name ∨ c.arn = name) →
        ∃ c, choose_container t (some name) sel = .ok c)
    ∧ ((∀ c ∈ t.containers, c.name ≠ name ∧ c.arn ≠ name) →
        choose_container t (some name) sel = .err "No container found matching"
        ∧ choose_container_prompts t (some name) = false)
    ∧ (∀ c, t.containers = [c] →
        choose_container t none sel = .ok c ∧ choose_container_prompts t none = false)
    ∧ (2 ≤ t.containers.length →
        choose_container_prompts t none = true
        ∧ (friendly_container_name t).length = t.containers.length
        ∧ (∀ c, t.containers[sel]? = some c →
            choose_container t none sel = .ok c
            ∧ (friendly_container_name t)[sel]? = some c.name)) := by
  refine ⟨?_, ?_, ?_, ?_, ?_⟩
  · intro c h
    rw [choose_container] at h
    cases hf : t.containers.find? (fun c => (c.name == name) || c.arn == name) with
    | none => rw [hf] at h; exact absurd h (by simp)
    | some c0 =>
      rw [hf] at h
      have hc : c = c0 := (RunResult.ok.inj h).symm
      subst hc
      have hp := List.find?_some hf
      have hm := List.mem_of_find?_eq_some hf
      simp only [Bool.or_eq_true, beq_iff_eq] at hp
      exact ⟨hm, hp⟩
  · intro ⟨c, hc, hmatch⟩
    rw [choose_container]
    cases hf : t.containers.find? (fun c => (c.name == name) || c.arn == name) with
    | none =>
      have := List.find?_eq_none.mp hf c hc
      simp only [Bool.or_eq_true, beq_iff_eq] at this
      exact absurd hmatch this
    | some c0 => exact ⟨c0, rfl⟩
  · intro hall
    constructor
    · rw [choose_container]
      cases hf : t.containers.find? (fun c => (c.name == name) || c.arn == name) with
      | none => rfl
      | some c0 =>
        have hp := List.find?_some hf
        have hm := List.mem_of_find?_eq_some hf
        simp only [Bool.or_eq_true, beq_iff_eq] at hp
        exact absurd hp (by simpa using hall c0 hm)
    · rfl
  · intro c h
    constructor
    · rw [choose_container, if_pos (by rw [h]; rfl)]
      rw [h]
      rfl
    · rw [choose_container_prompts, h]
      rfl
  · intro hlen
    have hne : t.containers.length ≠ 1 := by omega
    refine ⟨?_, ?_, ?_⟩
    · rw [choose_container_prompts]
      simpa using hne
    · exact List.length_map t.containers _
    · intro c h
      constructor
      · rw [choose_container, if_neg hne, h]
      · rw [friendly_container_name, List.getElem?_map, h]
        rfl

theorem choose_container_spec_witness :
    choose_container { name := "t", arn := "ta", containers := [{ arn := "cdb", name := "db", status := "RUNNING" }, { arn := "cweb", name := "web", status := "RUNNING" }], status := TaskStatus.RUNNING } none 1
      = .ok { arn := "cweb", name := "web", status := "RUNNING" }
    ∧ choose_container_prompts { name := "t", arn := "ta", containers := [{ arn := "cdb", name := "db", status := "RUNNING" }, { arn := "cweb", name := "web", status := "RUNNING" }], status := TaskStatus.RUNNING } none = true := by
  have h := choose_container_spec { name := "t", arn := "ta", containers := [{ arn := "cdb", name := "db", status := "RUNNING" }, { arn := "cweb", name := "web", status := "RUNNING" }], status := TaskStatus.RUNNING } "x" 1
  obtain ⟨hprompt, _, hsel⟩ := h.2.2.2.2 (by decide)
  exact ⟨(hsel _ (by decide)).1, hprompt⟩



unseal List.merge List.mergeSort in
/-- C4 counterexample: sorting is applied to the *raw* ARNs, so menu
position 0 need not show the lexicographically smallest friendly name —
here the menu is `["z", "a"]` although `"a"` sorts before `"z"`. -/
theorem cluster_menu_not_min_friendly :
    friendly_cluster_names (["b:cluster/a", "a:cluster/z"].mergeSort string_le) = .ok ["z", "a"]
    ∧ ("a" : String) ∈ ["z", "a"]
    ∧ string_le "a" "z" = true
    ∧ ("a" : String) ≠ "z"
    ∧ get_cluster_interactive (some ["b:cluster/a", "a:cluster/z"]) 0 = .ok "a:cluster/z" := by
  decide

/-- C4 amended: in the interactive path the raw ARNs are sorted, the menu
is their friendly names in the same order (so position 0 shows the friendly
name of the smallest *raw* ARN), and the selection at any index returns the
raw ARN whose friendly name is displayed at exactly that index. -/
theorem get_cluster_interactive_spec (arns : List String) (sel : Nat)
    (hin : ∀ a ∈ arns, clusterSep <:+: a.data)
    (hsel : sel < arns.length) :
    friendly_cluster_names (arns.mergeSort string_le)
        = .ok ((arns.mergeSort string_le).map friendlyD)
    ∧ ((arns.mergeSort string_le).map friendlyD).length = arns.length
    ∧ (∃ chosen, (arns.mergeSort string_le)[sel]? = some chosen
        ∧ get_cluster_interactive (some arns) sel = .ok chosen
        ∧ ((arns.mergeSort string_le).map friendlyD)[sel]? = some (friendlyD chosen))
    ∧ (∃ first rest, arns.mergeSort string_le = first :: rest
        ∧ (∀ a ∈ arns, string_le first a = true)
        ∧ ((arns.mergeSort string_le).map friendlyD)[0]? = some (friendlyD first)) := by
  have hperm := List.mergeSort_perm arns string_le
  have hlen : (arns.mergeSort string_le).length = arns.length := hperm.length_eq
  have hin' : ∀ a ∈ arns.mergeSort string_le, clusterSep <:+: a.data :=
    fun a ha => hin a (hperm.mem_iff.mp ha)
  have hmenu := friendly_cluster_names_ok hin'
  have hne : arns ≠ [] := by
    intro h
    rw [h] at hsel
    exact absurd hsel (by simp)
  have hselm : sel < (arns.mergeSort string_le).length := by rw [hlen]; exact hsel
  have hget : (arns.mergeSort string_le)[sel]? = some (arns.mergeSort string_le)[sel] :=
    List.getElem?_eq_getElem hselm
  refine ⟨hmenu, by rw [List.length_map, hlen], ?_, ?_⟩
  · refine ⟨(arns.mergeSort string_le)[sel], hget, ?_, ?_⟩
    · rw [get_cluster_interactive]
      simp only [hmenu, hget]
    · rw [List.getElem?_map, hget]
      rfl
  · obtain ⟨first, rest, hms, hmin⟩ := mergeSort_head_min arns hne
    refine ⟨first, rest, hms, hmin, ?_⟩
    rw [List.getElem?_map, hms]
    simp

unseal List.merge List.mergeSort in
theorem get_cluster_interactive_spec_witness :
    get_cluster_interactive (some ["p:cluster/b", "p:cluster/a"]) 0 = .ok "p:cluster/a" := by
  have h := get_cluster_interactive_spec ["p:cluster/b", "p:cluster/a"] 0 (by decide) (by decide)
  obtain ⟨_, _, ⟨chosen, hc, hrun, _⟩, _⟩ := h
  have hch : "p:cluster/a" = chosen := Option.some.inj hc
  rw [← hch] at hrun
  exact hrun


end Awsconnect
